import Mathlib

/-!
# Verification of the streamed-chat decoder, fallback coordinator and audio
# recorder lifecycle of `local-ai-transcript`

Shallow embedding of the frontend core:

* `src/frontend/src/lib/api-client.ts`, `streamChatMessage` — the line-oriented
  stream frame decoder and its callback dispatch (`onChunk` / `onDone` /
  `onError`).  Network chunks are modelled after text decoding (the
  `TextDecoder` in `stream: true` mode reassembles split UTF-8 sequences, so
  the decoding loop only ever observes a split of the decoded character
  stream); a chunk is a `List Char`.
* `ChatbotPanel.send` — the fallback coordinator around `streamChatMessage`.
* `src/frontend/src/hooks/use-audio-recorder.ts` — the recording lifecycle,
  modelled as an explicit state machine over the hook's refs and state, with
  an effect trace recording every acquisition and release of the device
  handle, audio context, animation frame and interval timer.
-/

/-! ## Stream frame decoder (`streamChatMessage`, api-client.ts lines 372-401) -/

/-- One callback invocation made by `streamChatMessage`:
`onChunk data`, `onDone`, or `onError msg`. -/
inductive Out
  | chunk (data : List Char)
  | done
  | error (msg : List Char)
  deriving DecidableEq, Repr

/-- The literal `"event: "` marker. -/
def evMark : List Char := "event: ".toList

/-- The literal `"data: "` marker. -/
def dataMark : List Char := "data: ".toList

/-- The reserved terminal event name `"done"`. -/
def doneL : List Char := "done".toList

/-- The reserved error event name `"error"`. -/
def errL : List Char := "error".toList

/-- The default event name `"message"`. -/
def msgL : List Char := "message".toList

/-- The fixed message `"Unknown error"` used by `onError(data || "Unknown error")`
when the data payload is empty. -/
def unknownL : List Char := "Unknown error".toList

/-- Whitespace characters removed by JavaScript `String.prototype.trim`
(ASCII subset plus NBSP; sufficient for the lines at issue, which are
newline-free by construction). -/
def isWs (c : Char) : Bool :=
  c = ' ' || c = '\t' || c = '\n' || c = '\r' || c = '\x0b' || c = '\x0c' || c = '\xa0'

/-- JavaScript `String.prototype.trim` on a character list. -/
def trimChars (l : List Char) : List Char :=
  ((l.dropWhile isWs).reverse.dropWhile isWs).reverse

/-- The loop-carried decoder variables other than the carry-over buffer:
`currentEvent` and whether the async function has already returned
(after `onDone`/`onError` fired). -/
structure LS where
  event : List Char
  halted : Bool
  deriving DecidableEq, Repr

/-- The body of `for (const line of lines)` in `streamChatMessage`:

```
if (line.startsWith("event: ")) {
  currentEvent = line.slice(7).trim();
  if (currentEvent === "done") { onDone(); return; }
} else if (line.startsWith("data: ")) {
  const data = line.slice(6);
  if (currentEvent === "error") { onError(data || "Unknown error"); return; }
  else if (data) { onChunk(data); }
}
```
-/
def lineStep (s : LS) (line : List Char) : LS × List Out :=
  if List.isPrefixOf evMark line then
    let e := trimChars (line.drop 7)
    if e = doneL then ({ event := e, halted := true }, [Out.done])
    else ({ s with event := e }, [])
  else if List.isPrefixOf dataMark line then
    let data := line.drop 6
    if s.event = errL then
      ({ s with halted := true }, [Out.error (if data = [] then unknownL else data)])
    else if data = [] then (s, [])
    else (s, [Out.chunk data])
  else (s, [])

/-- Run `lineStep` over the complete lines of one read, stopping (as the
`return` statements do) once a terminal callback has fired. -/
def procLines : LS → List (List Char) → LS × List Out
  | s, [] => (s, [])
  | s, l :: ls =>
    if s.halted then (s, [])
    else
      let (s1, o1) := lineStep s l
      let (s2, o2) := procLines s1 ls
      (s2, o1 ++ o2)

/-- `text.split("\n")` — always a non-empty list; the final element is the
text after the last newline (possibly empty). -/
def splitNl : List Char → List (List Char)
  | [] => [[]]
  | c :: cs =>
    if c = '\n' then [] :: splitNl cs
    else (c :: (splitNl cs).headD []) :: (splitNl cs).tail

/-- Helper for reasoning about `splitNl` over concatenations: merge the last
piece of the first split with the first piece of the second split. -/
def glue : List (List Char) → List (List Char) → List (List Char)
  | [], ys => ys
  | [x], ys => (x ++ ys.headD []) :: ys.tail
  | x :: xs, ys => x :: glue xs ys

/-- Decoder state: the carry-over buffer (`buffer`) plus the loop state. -/
abbrev DecSt := List Char × LS

/-- The initial decoder state: empty buffer, `currentEvent = "message"`,
not yet returned. -/
def dec0 : DecSt := ([], ⟨msgL, false⟩)

/-- One iteration of the `while (true)` read loop of `streamChatMessage` on a
freshly decoded text chunk:

```
buffer += decoder.decode(value, { stream: true });
const lines = buffer.split("\n");
buffer = lines.pop() || "";
for (const line of lines) { ... }
```

If the function already returned, later reads are never consumed. -/
def feedChunk (st : DecSt) (chunk : List Char) : DecSt × List Out :=
  if st.2.halted then (st, [])
  else
    let parts := splitNl (st.1 ++ chunk)
    let (s1, o) := procLines st.2 parts.dropLast
    ((parts.getLastD [], s1), o)

/-- Feed a sequence of read chunks through the decoding loop, concatenating
the callback invocations. -/
def feedMany : DecSt → List (List Char) → DecSt × List Out
  | st, [] => (st, [])
  | st, c :: cs =>
    let (st1, o1) := feedChunk st c
    let (st2, o2) := feedMany st1 cs
    (st2, o1 ++ o2)

/-- How the byte stream ends: normal end of stream (`done: true` from the
reader, after which `onDone()` runs), a thrown transport error (caught and
routed to `onError`), or an `AbortError` from the cancellation handle
(caught and swallowed). -/
inductive StreamEnd
  | eof
  | fail (msg : List Char)
  | abort
  deriving DecidableEq, Repr

/-- The complete callback sequence produced by `streamChatMessage` for a given
sequence of read chunks and a given way the stream ends.  A non-success
response status or missing body is the `chunks = []`, `fail` case. -/
def streamOutputs (chunks : List (List Char)) (endK : StreamEnd) : List Out :=
  let (st, o) := feedMany dec0 chunks
  match endK with
  | .eof => if st.2.halted then o else o ++ [Out.done]
  | .fail m => if st.2.halted then o else o ++ [Out.error m]
  | .abort => o

/-- Observational equivalence of decoder runs: same callback sequence, same
loop state; buffers also agree whenever the run has not returned. -/
def ORel (x y : DecSt × List Out) : Prop :=
  x.2 = y.2 ∧ x.1.2 = y.1.2 ∧ (x.1.2.halted = false → x.1.1 = y.1.1)

/-! ## Fallback coordinator (`ChatbotPanel.send`, unnamed part_004) -/

/-- The result of the single fallback `sendChatMessage(text, chatOptions)`
call: a reply, or a thrown error message. -/
def fbText : Except (List Char) (List Char) → List Char
  | .ok r => r
  | .error m => "Error: ".toList ++ m

/-- Observable coordinator outcome: assistant messages committed via
`setMessages`, the texts sent through the non-streamed fallback
`sendChatMessage`, and the final `streamingContent` / `loading` state. -/
structure CoordResult where
  committed : List (List Char)
  fallbackReqs : List (List Char)
  streaming : List Char
  loading : Bool
  deriving DecidableEq, Repr

/-- State at the start of `send`, just after `setLoading(true)` and
`setStreamingContent("")`. -/
def coordInit : CoordResult := ⟨[], [], [], true⟩

/-- The three callbacks `send` passes to `streamChatMessage`, acting on the
accumulated `fullResponse` (first component) and the observable state. -/
def coordStep (text : List Char) (fb : Except (List Char) (List Char)) :
    List Char × CoordResult → Out → List Char × CoordResult
  | (full, r), Out.chunk c =>
    (full ++ c, { r with streaming := full ++ c })
  | (full, r), Out.done =>
    (full, { r with committed := r.committed ++ [full], streaming := [], loading := false })
  | (full, r), Out.error _ =>
    (full, { r with committed := r.committed ++ [fbText fb],
                    fallbackReqs := r.fallbackReqs ++ [text],
                    streaming := [], loading := false })

/-- Run the coordinator callbacks over a callback sequence. -/
def coordRun (text : List Char) (fb : Except (List Char) (List Char)) :
    List Char × CoordResult → List Out → List Char × CoordResult
  | st, [] => st
  | st, o :: os => coordRun text fb (coordStep text fb st o) os

/-- The observable outcome of `send` for message `text`, a given callback
sequence from the stream, and a given fallback result. -/
def coordinate (text : List Char) (outs : List Out)
    (fb : Except (List Char) (List Char)) : CoordResult :=
  (coordRun text fb ([], coordInit) outs).2

/-- The concatenation of the `onChunk` payloads in a callback sequence —
the fully-streamed reply text. -/
def joinChunksOut (outs : List Out) : List Char :=
  (outs.filterMap fun o => match o with | Out.chunk c => some c | _ => none).flatten

/-- `true` exactly on the terminal callbacks `onDone` / `onError`. -/
def isTermB : Out → Bool
  | Out.chunk _ => false
  | Out.done => true
  | Out.error _ => true

/-! ## Audio recorder hook (`use-audio-recorder.ts`)

The hook is modelled as a state machine over its refs and React state.  Every
acquisition and release of an external resource is recorded in an effect
trace, so that "released exactly once" is a statement about effect counts.
React `setState` is modelled as a synchronous field update (the standard
abstraction for a single-threaded event loop); the displayed `volume` /
`waveformData` values are computed by the pure `updateAnalysis` below and are
not part of the machine state.  `setupAudioAnalysis` is modelled on its
success path (its internal `try`/`catch` only logs on failure). -/

/-- `MediaRecorder.state`: `"recording"` or `"inactive"` (after `stop()`). -/
inductive RecPhase
  | active
  | inactive
  deriving DecidableEq, Repr

/-- A `Blob`: its byte content and MIME type, as built by
`new Blob(chunksRef.current, { type: "audio/webm" })` (byte concatenation of
the parts). -/
structure BlobV where
  bytes : List Nat
  btype : List Char
  deriving DecidableEq, Repr

/-- The `"audio/webm"` container type tag. -/
def webmT : List Char := "audio/webm".toList

/-- Externally visible effects of the hook: resource acquisitions and
releases, recorder control, promise resolutions of `stopRecording`, and the
user-facing error message. -/
inductive Eff
  | getStream
  | stopTracks
  | newCtx
  | closeCtx
  | schedAnim
  | cancelAnim
  | setIntervalE
  | clearIntervalE
  | newRecorder
  | recStart
  | recStop
  | resolveB (b : Option BlobV)
  | reportErr (m : List Char)
  deriving DecidableEq, Repr

/-- The hook's refs and state.  `stream`/`audioCtx`/`analyser`/`sourceNode`
are `true` while the corresponding ref holds a live object; `animFrame` is
`true` while `animationFrameRef.current` is a scheduled (nonzero) frame id;
`timer` while `timerRef.current` is a live interval; `handlerAttached` once
`ondataavailable` has been installed on a recorder object (it is never
detached); `awaitingStop` once `recorder.onstop` has been set by
`stopRecording`; `stopTimerArmed` while the 1s failsafe `setTimeout` is
pending. -/
structure HookState where
  isRecording : Bool
  isStarting : Bool
  errorMsg : Option (List Char)
  recordingTime : Nat
  stream : Bool
  audioCtx : Bool
  analyser : Bool
  sourceNode : Bool
  animFrame : Bool
  timer : Bool
  recorder : Option RecPhase
  handlerAttached : Bool
  chunks : List (List Nat)
  startCancelled : Bool
  awaitingStop : Bool
  stopTimerArmed : Bool
  deriving DecidableEq, Repr

/-- The state on first render: nothing held, nothing running. -/
def hookInit : HookState :=
  { isRecording := false, isStarting := false, errorMsg := none,
    recordingTime := 0, stream := false, audioCtx := false, analyser := false,
    sourceNode := false, animFrame := false, timer := false, recorder := none,
    handlerAttached := false, chunks := [], startCancelled := false,
    awaitingStop := false, stopTimerArmed := false }

/-- The `cleanup` callback (use-audio-recorder.ts lines 42-66): each release
is guarded by the ref being non-null, and the ref is nulled afterwards, so
`cleanup` is idempotent on already-released state. -/
def cleanup (s : HookState) : HookState × List Eff :=
  ({ s with stream := false, audioCtx := false, animFrame := false,
            timer := false, recorder := none, analyser := false,
            sourceNode := false },
   (if s.stream then [Eff.stopTracks] else [])
     ++ (if s.audioCtx then [Eff.closeCtx] else [])
     ++ (if s.animFrame then [Eff.cancelAnim] else [])
     ++ (if s.timer then [Eff.clearIntervalE] else []))

/-- `handleStop` inside `stopRecording`: build the container from the
buffered chunks, clean up, leave both flags false, resolve the promise with
the blob. -/
def handleStop (s : HookState) : HookState × List Eff :=
  let blob : BlobV := ⟨s.chunks.flatten, webmT⟩
  let (s1, fx) := cleanup s
  ({ s1 with isRecording := false, isStarting := false },
   fx ++ [Eff.resolveB (some blob)])

/-- Events delivered to the hook by the user and by the browser:
`startReq`/`stopReq`/`cancel` are the exported operations; `acquireOk` /
`acquireFail` are the resolution of `getUserMedia` (on success the
synchronous continuation sets up analysis, recorder, timer); `dataAvail` is
`ondataavailable`; `animTick` a firing animation frame; `timerTick` the 1s
interval; `stopAck` the recorder's `onstop`; `stopTimeout` the 1s failsafe. -/
inductive Act
  | startReq
  | acquireOk
  | acquireFail (m : List Char)
  | dataAvail (seg : List Nat)
  | animTick
  | timerTick
  | stopReq
  | stopAck
  | stopTimeout
  | cancel
  deriving DecidableEq, Repr

/-- The `"Microphone access denied: "` prefix of the reported error. -/
def micDenied : List Char := "Microphone access denied: ".toList

/-- One transition of the hook (use-audio-recorder.ts lines 119-220). -/
def step (s : HookState) : Act → HookState × List Eff
  | Act.startReq =>
    if s.isRecording || s.isStarting then (s, [])
    else ({ s with isStarting := true, errorMsg := none, startCancelled := false }, [])
  | Act.acquireOk =>
    if s.startCancelled then
      ({ s with isStarting := false }, [Eff.getStream, Eff.stopTracks])
    else
      ({ s with stream := true, audioCtx := true, analyser := true,
                sourceNode := true, animFrame := true,
                recorder := some RecPhase.active, handlerAttached := true,
                chunks := [], isRecording := true, recordingTime := 0,
                timer := true, isStarting := false },
       [Eff.getStream, Eff.newCtx, Eff.schedAnim, Eff.newRecorder,
        Eff.recStart, Eff.setIntervalE])
  | Act.acquireFail m =>
    let (s1, fx) := cleanup s
    ({ s1 with errorMsg := some (micDenied ++ m), isStarting := false },
     Eff.reportErr (micDenied ++ m) :: fx)
  | Act.dataAvail seg =>
    if s.handlerAttached then
      if seg.length > 0 then ({ s with chunks := s.chunks ++ [seg] }, [])
      else (s, [])
    else (s, [])
  | Act.animTick =>
    if s.analyser then ({ s with animFrame := true }, [Eff.schedAnim])
    else (s, [])
  | Act.timerTick =>
    if s.timer then ({ s with recordingTime := s.recordingTime + 1 }, [])
    else (s, [])
  | Act.stopReq =>
    match s.recorder with
    | some RecPhase.active =>
      ({ s with awaitingStop := true, recorder := some RecPhase.inactive,
                stopTimerArmed := true }, [Eff.recStop])
    | _ =>
      let (s1, fx) := cleanup s
      ({ s1 with isRecording := false, isStarting := false },
       fx ++ [Eff.resolveB none])
  | Act.stopAck =>
    if s.awaitingStop then handleStop s else (s, [])
  | Act.stopTimeout =>
    if s.stopTimerArmed then
      if s.stream then handleStop { s with stopTimerArmed := false }
      else ({ s with stopTimerArmed := false }, [])
    else (s, [])
  | Act.cancel =>
    let s0 := if s.isStarting then { s with startCancelled := true } else s
    let (s1, fx) := cleanup s0
    ({ s1 with isRecording := false, isStarting := false, recordingTime := 0 }, fx)

/-- Run a sequence of events, concatenating the effect trace. -/
def run : HookState → List Act → HookState × List Eff
  | s, [] => (s, [])
  | s, a :: as_ =>
    let (s1, f1) := step s a
    let (s2, f2) := run s1 as_
    (s2, f1 ++ f2)

/-- Idle with every resource released: both flags false and no ref holding a
live handle. -/
def idleReleased (s : HookState) : Prop :=
  s.isRecording = false ∧ s.isStarting = false ∧ s.stream = false ∧
  s.audioCtx = false ∧ s.analyser = false ∧ s.sourceNode = false ∧
  s.animFrame = false ∧ s.timer = false ∧ s.recorder = none

instance (s : HookState) : Decidable (idleReleased s) := by
  unfold idleReleased; infer_instance

/-- Each handle acquired during a full session (device, audio context,
interval timer) is released exactly once, and the animation-frame loop is
cancelled exactly once. -/
def fullSession (fx : List Eff) : Prop :=
  fx.count Eff.getStream = 1 ∧ fx.count Eff.stopTracks = 1 ∧
  fx.count Eff.newCtx = 1 ∧ fx.count Eff.closeCtx = 1 ∧
  fx.count Eff.setIntervalE = 1 ∧ fx.count Eff.clearIntervalE = 1 ∧
  fx.count Eff.cancelAnim = 1

instance (fx : List Eff) : Decidable (fullSession fx) := by
  unfold fullSession; infer_instance

/-- Events that occur while recording proceeds normally: delivered segments,
animation frames, timer ticks. -/
def benign : Act → Bool
  | Act.dataAvail _ => true
  | Act.animTick => true
  | Act.timerTick => true
  | _ => false

/-- The value `stopRecording`'s promise settles with: a promise resolves at
most once, so the first `resolveB` effect wins. -/
def firstResolve (fx : List Eff) : Option (Option BlobV) :=
  (fx.filterMap fun e => match e with | Eff.resolveB b => some b | _ => none).head?

/-- `updateAnalysis` (use-audio-recorder.ts lines 87-111) as a pure function
of the magnitude array read at one animation tick: the published volume
(`Math.min(100, (average / 255) * 100 * 2)`, arithmetic in ℚ) and the
32-bucket waveform (`dataArray[i * step] || 0` with
`step = Math.floor(bufferLength / 32)`). -/
def updateAnalysis (data : List Nat) : ℚ × List Nat :=
  let average : ℚ := (data.sum : ℚ) / (data.length : ℚ)
  (min 100 (average / 255 * 100 * 2),
   (List.range 32).map fun i => data.getD (i * (data.length / 32)) 0)

/-- The state while a recording proceeds normally: every resource ref holds a
live handle, the recorder is active with its data handler installed, and the
start phase is over. -/
def fullHeld (s : HookState) : Prop :=
  s.stream = true ∧ s.audioCtx = true ∧ s.analyser = true ∧
  s.animFrame = true ∧ s.timer = true ∧ s.recorder = some RecPhase.active ∧
  s.handlerAttached = true ∧ s.isStarting = false

/-- An effect trace that neither acquires nor releases any handle
(animation-frame rescheduling aside). -/
def zeroRelease (fx : List Eff) : Prop :=
  fx.count Eff.getStream = 0 ∧ fx.count Eff.stopTracks = 0 ∧
  fx.count Eff.newCtx = 0 ∧ fx.count Eff.closeCtx = 0 ∧
  fx.count Eff.setIntervalE = 0 ∧ fx.count Eff.clearIntervalE = 0 ∧
  fx.count Eff.cancelAnim = 0

/-- The hook state just after a successful `startRecording` (computed by
`run hookInit [Act.startReq, Act.acquireOk]`). -/
def recState0 : HookState :=
  { isRecording := true, isStarting := false, errorMsg := none,
    recordingTime := 0, stream := true, audioCtx := true, analyser := true,
    sourceNode := true, animFrame := true, timer := true,
    recorder := some RecPhase.active, handlerAttached := true, chunks := [],
    startCancelled := false, awaitingStop := false, stopTimerArmed := false }

/-! ## Lemmas: line splitting -/

theorem splitNl_ne_nil (l : List Char) : splitNl l ≠ [] := by
  cases l with
  | nil => simp [splitNl]
  | cons c cs => simp only [splitNl]; split <;> simp

theorem glue_cons_of_ne_nil (x : List Char) (xs ys : List (List Char)) (h : xs ≠ []) :
    glue (x :: xs) ys = x :: glue xs ys := by
  cases xs with
  | nil => exact absurd rfl h
  | cons a as => rfl

theorem splitNl_append (a b : List Char) :
    splitNl (a ++ b) = glue (splitNl a) (splitNl b) := by
  induction a with
  | nil =>
    cases h : splitNl b with
    | nil => exact absurd h (splitNl_ne_nil b)
    | cons y ys => simp [splitNl, glue, h]
  | cons c cs ih =>
    cases hs : splitNl cs with
    | nil => exact absurd hs (splitNl_ne_nil cs)
    | cons y ys =>
      by_cases hc : c = '\n'
      · subst hc
        show splitNl ('\n' :: (cs ++ b)) = glue (splitNl ('\n' :: cs)) (splitNl b)
        rw [show splitNl ('\n' :: (cs ++ b)) = [] :: splitNl (cs ++ b) from by simp [splitNl],
            show splitNl ('\n' :: cs) = [] :: splitNl cs from by simp [splitNl],
            ih, hs]
        rfl
      · show splitNl (c :: (cs ++ b)) = glue (splitNl (c :: cs)) (splitNl b)
        have hL : splitNl (c :: (cs ++ b))
            = (c :: (splitNl (cs ++ b)).headD []) :: (splitNl (cs ++ b)).tail := by
          simp [splitNl, hc]
        have hR : splitNl (c :: cs) = (c :: y) :: ys := by
          simp [splitNl, hc, hs]
        rw [hL, hR, ih, hs]
        cases ys with
        | nil => rfl
        | cons y2 ys2 => rfl

theorem mem_splitNl_no_nl (l : List Char) : ∀ x ∈ splitNl l, '\n' ∉ x := by
  induction l with
  | nil => intro x hx; simp [splitNl] at hx; simp [hx]
  | cons c cs ih =>
    intro x hx
    cases hs : splitNl cs with
    | nil => exact absurd hs (splitNl_ne_nil cs)
    | cons y ys =>
      by_cases hc : c = '\n'
      · subst hc
        simp only [splitNl, if_pos rfl, hs] at hx
        rcases List.mem_cons.mp hx with h | h
        · simp [h]
        · exact ih x (hs ▸ h)
      · simp only [splitNl, if_neg hc, hs, List.headD_cons, List.tail_cons] at hx
        rcases List.mem_cons.mp hx with h | h
        · subst h
          intro hmem
          rcases List.mem_cons.mp hmem with h1 | h1
          · exact hc h1.symm
          · exact ih y (hs ▸ List.mem_cons_self y ys) h1
        · exact ih x (hs ▸ List.mem_cons_of_mem y h)

theorem getLastD_mem {α : Type} (l : List α) (d : α) (h : l ≠ []) : l.getLastD d ∈ l := by
  induction l generalizing d with
  | nil => exact absurd rfl h
  | cons a as ih =>
    cases as with
    | nil => simp [List.getLastD]
    | cons b bs =>
      rw [List.getLastD_cons]
      exact List.mem_cons_of_mem a (ih a (by simp))

theorem no_nl_getLastD_splitNl (l : List Char) : '\n' ∉ (splitNl l).getLastD [] :=
  mem_splitNl_no_nl l _ (getLastD_mem _ _ (splitNl_ne_nil l))

theorem splitNl_no_nl (l : List Char) (h : '\n' ∉ l) : splitNl l = [l] := by
  induction l with
  | nil => rfl
  | cons c cs ih =>
    have hc : c ≠ '\n' := fun hc => h (by simp [hc])
    have hcs : '\n' ∉ cs := fun hm => h (List.mem_cons_of_mem c hm)
    simp [splitNl, if_neg hc, ih hcs]

theorem getLastD_append_cons {α : Type} (A : List α) (z : α) (t : List α) (d : α) :
    (A ++ z :: t).getLastD d = (z :: t).getLastD d := by
  induction A generalizing d with
  | nil => rfl
  | cons a as ih =>
    rw [List.cons_append, List.getLastD_cons, ih]
    cases as <;> rfl

theorem glue_spec (xs ys : List (List Char)) (h : xs ≠ []) :
    glue xs ys = xs.dropLast ++ (xs.getLastD [] ++ ys.headD []) :: ys.tail := by
  induction xs with
  | nil => exact absurd rfl h
  | cons x xs ih =>
    cases xs with
    | nil => simp [glue]
    | cons x2 xs2 =>
      have e1 : glue (x :: x2 :: xs2) ys = x :: glue (x2 :: xs2) ys := rfl
      have e3 : (x :: x2 :: xs2).getLastD [] = (x2 :: xs2).getLastD [] := by
        rw [List.getLastD_cons, List.getLastD_cons, List.getLastD_cons]
      rw [e1, ih (by simp), e3]
      simp

/-! ## Lemmas: the decoding loop as a fold -/

theorem procLines_halted (s : LS) (ls : List (List Char)) (h : s.halted = true) :
    procLines s ls = (s, []) := by
  cases ls with
  | nil => rfl
  | cons l ls => simp [procLines, h]

theorem procLines_append (s : LS) (A B : List (List Char)) :
    procLines s (A ++ B) =
      ((procLines (procLines s A).1 B).1,
       (procLines s A).2 ++ (procLines (procLines s A).1 B).2) := by
  induction A generalizing s with
  | nil => simp [procLines]
  | cons l A' ih =>
    by_cases h : s.halted = true
    · rw [List.cons_append, procLines_halted _ _ h, procLines_halted _ _ h]
      simp [procLines_halted _ _ h]
    · rcases hls : lineStep s l with ⟨s1, o1⟩
      simp only [List.cons_append, procLines, h, if_false, Bool.false_eq_true, hls,
        List.append_eq]
      rw [ih]
      simp [List.append_assoc]

theorem feedChunk_halted (st : DecSt) (c : List Char) (h : st.2.halted = true) :
    feedChunk st c = (st, []) := by
  simp [feedChunk, h]

theorem feedChunk_append (st : DecSt) (c1 c2 : List Char) :
    (feedChunk st (c1 ++ c2)).2
        = (feedChunk st c1).2 ++ (feedChunk (feedChunk st c1).1 c2).2
      ∧ (feedChunk st (c1 ++ c2)).1.2 = (feedChunk (feedChunk st c1).1 c2).1.2
      ∧ ((feedChunk (feedChunk st c1).1 c2).1.2.halted = false →
          (feedChunk st (c1 ++ c2)).1 = (feedChunk (feedChunk st c1).1 c2).1) := by
  rcases st with ⟨buf, s⟩
  by_cases h : s.halted = true
  · rw [feedChunk_halted _ _ h, feedChunk_halted _ _ h, feedChunk_halted _ _ h]
    simp
  · have hglue : splitNl (buf ++ (c1 ++ c2))
        = glue (splitNl (buf ++ c1)) (splitNl c2) := by
      rw [← List.append_assoc, splitNl_append]
    have hnl : ('\n') ∉ (splitNl (buf ++ c1)).getLastD [] := no_nl_getLastD_splitNl _
    have hsecond : splitNl ((splitNl (buf ++ c1)).getLastD [] ++ c2)
        = ((splitNl (buf ++ c1)).getLastD [] ++ (splitNl c2).headD [])
            :: (splitNl c2).tail := by
      rw [splitNl_append, splitNl_no_nl _ hnl]; rfl
    have hspec : glue (splitNl (buf ++ c1)) (splitNl c2)
        = (splitNl (buf ++ c1)).dropLast
            ++ ((splitNl (buf ++ c1)).getLastD [] ++ (splitNl c2).headD [])
            :: (splitNl c2).tail :=
      glue_spec _ _ (splitNl_ne_nil _)
    rcases hp1 : procLines s (splitNl (buf ++ c1)).dropLast with ⟨s1, o1⟩
    have hfc1 : feedChunk (buf, s) c1 = (((splitNl (buf ++ c1)).getLastD [], s1), o1) := by
      simp [feedChunk, h, hp1]
    have hone : feedChunk (buf, s) (c1 ++ c2)
        = (((glue (splitNl (buf ++ c1)) (splitNl c2)).getLastD [],
            (procLines s1 (((splitNl (buf ++ c1)).getLastD []
                ++ (splitNl c2).headD []) :: (splitNl c2).tail).dropLast).1),
           o1 ++ (procLines s1 (((splitNl (buf ++ c1)).getLastD []
                ++ (splitNl c2).headD []) :: (splitNl c2).tail).dropLast).2) := by
      have hdl : (glue (splitNl (buf ++ c1)) (splitNl c2)).dropLast
          = (splitNl (buf ++ c1)).dropLast
              ++ (((splitNl (buf ++ c1)).getLastD [] ++ (splitNl c2).headD [])
              :: (splitNl c2).tail).dropLast := by
        rw [hspec, List.dropLast_append_cons]
      simp only [feedChunk, h, if_false, Bool.false_eq_true, hglue, hdl,
        procLines_append, hp1]
    rw [hfc1]
    by_cases htl : s1.halted = true
    · have hsecnop : feedChunk (((splitNl (buf ++ c1)).getLastD [], s1)) c2
          = ((((splitNl (buf ++ c1)).getLastD [], s1)), []) :=
        feedChunk_halted _ _ htl
      have hplh := procLines_halted s1 (((splitNl (buf ++ c1)).getLastD []
          ++ (splitNl c2).headD []) :: (splitNl c2).tail).dropLast htl
      rw [hone, hsecnop, hplh]
      refine ⟨by simp, rfl, ?_⟩
      intro hfalse
      exact absurd (show s1.halted = false from hfalse) (by simp [htl])
    · have hfc2 : feedChunk (((splitNl (buf ++ c1)).getLastD [], s1)) c2
          = (((((splitNl (buf ++ c1)).getLastD [] ++ (splitNl c2).headD [])
                :: (splitNl c2).tail).getLastD [],
              (procLines s1 (((splitNl (buf ++ c1)).getLastD []
                ++ (splitNl c2).headD []) :: (splitNl c2).tail).dropLast).1),
             (procLines s1 (((splitNl (buf ++ c1)).getLastD []
                ++ (splitNl c2).headD []) :: (splitNl c2).tail).dropLast).2) := by
        simp only [feedChunk, htl, if_false, Bool.false_eq_true, hsecond]
      have hbuf : (glue (splitNl (buf ++ c1)) (splitNl c2)).getLastD []
          = (((splitNl (buf ++ c1)).getLastD [] ++ (splitNl c2).headD [])
              :: (splitNl c2).tail).getLastD [] := by
        rw [hspec, getLastD_append_cons]
      rw [hone, hfc2, hbuf]
      exact ⟨rfl, rfl, fun _ => rfl⟩

theorem feedChunk_no_nl (st : DecSt) (c : List Char) (h : ('\n') ∉ st.1) :
    ('\n') ∉ (feedChunk st c).1.1 := by
  rcases st with ⟨buf, s⟩
  by_cases hh : s.halted = true
  · rw [feedChunk_halted _ _ hh]; exact h
  · rcases hp : procLines s (splitNl (buf ++ c)).dropLast with ⟨s1, o1⟩
    have hg := no_nl_getLastD_splitNl (buf ++ c)
    rw [List.getLastD_eq_getLast?] at hg
    simp [feedChunk, hh, hp, hg]

theorem feedMany_flatten (st : DecSt) (hst : ('\n') ∉ st.1) (chunks : List (List Char)) :
    ORel (feedMany st chunks) (feedChunk st chunks.flatten) := by
  induction chunks generalizing st with
  | nil =>
    by_cases h : st.2.halted = true
    · rw [show feedMany st [] = (st, []) from rfl]
      rw [show ([] : List (List Char)).flatten = [] from rfl, feedChunk_halted _ _ h]
      exact ⟨rfl, rfl, fun _ => rfl⟩
    · have hz : feedChunk st [] = (st, []) := by
        rcases st with ⟨buf, s⟩
        simp [feedChunk, h, splitNl_no_nl buf hst, procLines]
      rw [show feedMany st [] = (st, []) from rfl,
          show ([] : List (List Char)).flatten = [] from rfl, hz]
      exact ⟨rfl, rfl, fun _ => rfl⟩
  | cons c cs ih =>
    have hflat : (c :: cs).flatten = c ++ cs.flatten := rfl
    rcases hc : feedChunk st c with ⟨st1, o1⟩
    have hst1 : ('\n') ∉ st1.1 := by
      have := feedChunk_no_nl st c hst
      rw [hc] at this; exact this
    have happ := feedChunk_append st c cs.flatten
    rw [hc] at happ
    have ihc := ih st1 hst1
    rcases hm : feedMany st1 cs with ⟨st2, o2⟩
    rw [hm] at ihc
    rcases hf2 : feedChunk st1 cs.flatten with ⟨st3, o3⟩
    rw [hf2] at ihc happ
    obtain ⟨ho, hls, hbuf⟩ := ihc
    obtain ⟨hao, hals, habuf⟩ := happ
    have ho' : o2 = o3 := ho
    have hls' : st2.2 = st3.2 := hls
    have hbuf' : st2.2.halted = false → st2.1 = st3.1 := hbuf
    have hao' : (feedChunk st (c ++ cs.flatten)).2 = o1 ++ o3 := hao
    have hals' : (feedChunk st (c ++ cs.flatten)).1.2 = st3.2 := hals
    have habuf' : st3.2.halted = false → (feedChunk st (c ++ cs.flatten)).1 = st3 := habuf
    have hrun : feedMany st (c :: cs) = (st2, o1 ++ o2) := by
      simp [feedMany, hc, hm]
    rw [hrun, hflat]
    refine ⟨?_, ?_, ?_⟩
    · show o1 ++ o2 = (feedChunk st (c ++ cs.flatten)).2
      rw [hao', ho']
    · show st2.2 = (feedChunk st (c ++ cs.flatten)).1.2
      rw [hals', hls']
    · intro hh
      have hh2 : st2.2.halted = false := hh
      have hh3 : st3.2.halted = false := hls' ▸ hh2
      show st2.1 = (feedChunk st (c ++ cs.flatten)).1.1
      rw [habuf' hh3]
      exact hbuf' hh2

/-- Claim C1 (framing determinism of the Stream Frame Decoder): for every
sequence of read chunks and every way the stream ends, the decoding loop of
`streamChatMessage` produces exactly the callback sequence it would produce
had the whole decoded text arrived as one read.  Since every split of a byte
sequence into read chunks has the same concatenation, any two splits produce
the same `onChunk`/`onDone`/`onError` sequence, in the same order. -/
theorem framing_determinism (chunks : List (List Char)) (endK : StreamEnd) :
    streamOutputs chunks endK = streamOutputs [chunks.flatten] endK := by
  have h := feedMany_flatten dec0 (by simp [dec0]) chunks
  have h1 : feedMany dec0 [chunks.flatten] = feedChunk dec0 chunks.flatten := by
    rcases hf : feedChunk dec0 chunks.flatten with ⟨st1, o1⟩
    simp [feedMany, hf]
  rcases hm : feedMany dec0 chunks with ⟨stA, oA⟩
  rcases hf : feedChunk dec0 chunks.flatten with ⟨stB, oB⟩
  rw [hm, hf] at h
  obtain ⟨ho, hls, _⟩ := h
  have ho' : oA = oB := ho
  have hls' : stA.2 = stB.2 := hls
  simp only [streamOutputs, hm, h1, hf]
  cases endK <;> simp [ho', hls']

/-! ## Lemmas: callback-sequence shape -/

theorem feedMany_halted (st : DecSt) (chunks : List (List Char))
    (h : st.2.halted = true) : feedMany st chunks = (st, []) := by
  induction chunks with
  | nil => rfl
  | cons c cs ih => simp [feedMany, feedChunk_halted _ _ h, ih]

theorem lineStep_shape (s : LS) (l : List Char) (h : s.halted = false) :
    ((lineStep s l).1.halted = true →
        ∃ t, (lineStep s l).2 = [t] ∧ isTermB t = true)
    ∧ ((lineStep s l).1.halted = false →
        (lineStep s l).2 = [] ∨ ∃ c, (lineStep s l).2 = [Out.chunk c]) := by
  unfold lineStep
  by_cases h1 : List.isPrefixOf evMark l
  · by_cases h2 : trimChars (l.drop 7) = doneL
    · refine ⟨fun _ => ⟨Out.done, ?_, rfl⟩, fun hh => ?_⟩
      · simp [h1, h2]
      · simp [h1, h2] at hh
    · refine ⟨fun hh => ?_, fun _ => Or.inl ?_⟩
      · simp [h1, h2, h] at hh
      · simp [h1, h2]
  · by_cases h3 : List.isPrefixOf dataMark l
    · by_cases h4 : s.event = errL
      · refine ⟨fun _ => ⟨Out.error (if l.drop 6 = [] then unknownL else l.drop 6),
          ?_, rfl⟩, fun hh => ?_⟩
        · simp [h1, h3, h4]
        · simp [h1, h3, h4] at hh
      · by_cases h5 : l.drop 6 = []
        · refine ⟨fun hh => ?_, fun _ => Or.inl ?_⟩
          · simp [h1, h3, h4, h5, h] at hh
          · simp [h1, h3, h4, h5]
        · refine ⟨fun hh => ?_, fun _ => Or.inr ⟨l.drop 6, ?_⟩⟩
          · simp [h1, h3, h4, h5, h] at hh
          · simp [h1, h3, h4, h5]
    · refine ⟨fun hh => ?_, fun _ => Or.inl ?_⟩
      · simp [h1, h3, h] at hh
      · simp [h1, h3]

theorem procLines_shape (ls : List (List Char)) : ∀ (s : LS), s.halted = false →
    ((procLines s ls).1.halted = false →
        ∃ cs : List (List Char), (procLines s ls).2 = cs.map Out.chunk)
    ∧ ((procLines s ls).1.halted = true →
        ∃ (cs : List (List Char)) (t : Out), isTermB t = true
          ∧ (procLines s ls).2 = cs.map Out.chunk ++ [t]) := by
  induction ls with
  | nil =>
    intro s h
    exact ⟨fun _ => ⟨[], rfl⟩, fun hh => absurd hh (by simp [procLines, h])⟩
  | cons l ls ih =>
    intro s h
    rcases hls : lineStep s l with ⟨s1, o1⟩
    obtain ⟨hterm, hok⟩ := lineStep_shape s l h
    rw [hls] at hterm hok
    by_cases h1 : s1.halted = true
    · have hrest : procLines s1 ls = (s1, []) := procLines_halted _ _ h1
      have hred : procLines s (l :: ls) = (s1, o1 ++ []) := by
        simp [procLines, h, hls, hrest]
      rw [hred]
      obtain ⟨t, hto, htt⟩ := hterm h1
      have hto' : o1 = [t] := hto
      exact ⟨fun hh => absurd h1 (by simp [show s1.halted = false from hh]),
             fun _ => ⟨[], t, htt, by simp [hto']⟩⟩
    · have h1f : s1.halted = false := by simpa using h1
      obtain ⟨ihok, ihterm⟩ := ih s1 h1f
      rcases hpl : procLines s1 ls with ⟨s2, o2⟩
      rw [hpl] at ihok ihterm
      have hred : procLines s (l :: ls) = (s2, o1 ++ o2) := by
        simp [procLines, h, hls, hpl]
      rw [hred]
      constructor
      · intro hh
        obtain ⟨cs, hcs⟩ := ihok hh
        have hcs' : o2 = cs.map Out.chunk := hcs
        rcases hok h1f with ho | ⟨c, hc⟩
        · have ho' : o1 = [] := ho
          exact ⟨cs, by simp [ho', hcs']⟩
        · have hc' : o1 = [Out.chunk c] := hc
          exact ⟨c :: cs, by simp [hc', hcs']⟩
      · intro hh
        obtain ⟨cs, t, htt, hcs⟩ := ihterm hh
        have hcs' : o2 = cs.map Out.chunk ++ [t] := hcs
        rcases hok h1f with ho | ⟨c, hc⟩
        · have ho' : o1 = [] := ho
          exact ⟨cs, t, htt, by simp [ho', hcs']⟩
        · have hc' : o1 = [Out.chunk c] := hc
          exact ⟨c :: cs, t, htt, by simp [hc', hcs']⟩

theorem feedChunk_shape (st : DecSt) (c : List Char) (h : st.2.halted = false) :
    ((feedChunk st c).1.2.halted = false →
        ∃ cs : List (List Char), (feedChunk st c).2 = cs.map Out.chunk)
    ∧ ((feedChunk st c).1.2.halted = true →
        ∃ (cs : List (List Char)) (t : Out), isTermB t = true
          ∧ (feedChunk st c).2 = cs.map Out.chunk ++ [t]) := by
  rcases st with ⟨buf, s⟩
  have hs : s.halted = false := h
  rcases hp : procLines s (splitNl (buf ++ c)).dropLast with ⟨s1, o1⟩
  have hred : feedChunk (buf, s) c = (((splitNl (buf ++ c)).getLastD [], s1), o1) := by
    simp [feedChunk, hs, hp]
  obtain ⟨pok, pterm⟩ := procLines_shape (splitNl (buf ++ c)).dropLast s hs
  rw [hp] at pok pterm
  rw [hred]
  exact ⟨pok, pterm⟩

theorem feedMany_shape (chunks : List (List Char)) : ∀ (st : DecSt),
    st.2.halted = false →
    ((feedMany st chunks).1.2.halted = false →
        ∃ cs : List (List Char), (feedMany st chunks).2 = cs.map Out.chunk)
    ∧ ((feedMany st chunks).1.2.halted = true →
        ∃ (cs : List (List Char)) (t : Out), isTermB t = true
          ∧ (feedMany st chunks).2 = cs.map Out.chunk ++ [t]) := by
  induction chunks with
  | nil =>
    intro st h
    exact ⟨fun _ => ⟨[], rfl⟩, fun hh => absurd hh (by simp [feedMany, h])⟩
  | cons c rest ih =>
    intro st h
    rcases hc : feedChunk st c with ⟨st1, o1⟩
    obtain ⟨fok, fterm⟩ := feedChunk_shape st c h
    rw [hc] at fok fterm
    by_cases h1 : st1.2.halted = true
    · have hm1 : feedMany st1 rest = (st1, []) := feedMany_halted _ _ h1
      have hred : feedMany st (c :: rest) = (st1, o1 ++ []) := by
        simp [feedMany, hc, hm1]
      rw [hred]
      obtain ⟨cs0, t, htt, hto⟩ := fterm h1
      have hto' : o1 = cs0.map Out.chunk ++ [t] := hto
      exact ⟨fun hh => absurd h1 (by simp [show st1.2.halted = false from hh]),
             fun _ => ⟨cs0, t, htt, by simp [hto']⟩⟩
    · have h1f : st1.2.halted = false := by simpa using h1
      obtain ⟨iok, iterm⟩ := ih st1 h1f
      rcases hm : feedMany st1 rest with ⟨st2, o2⟩
      rw [hm] at iok iterm
      have hred : feedMany st (c :: rest) = (st2, o1 ++ o2) := by
        simp [feedMany, hc, hm]
      rw [hred]
      obtain ⟨cs1, hcs1⟩ := fok h1f
      have hcs1' : o1 = cs1.map Out.chunk := hcs1
      constructor
      · intro hh
        obtain ⟨cs2, hcs2⟩ := iok hh
        have hcs2' : o2 = cs2.map Out.chunk := hcs2
        exact ⟨cs1 ++ cs2, by simp [hcs1', hcs2']⟩
      · intro hh
        obtain ⟨cs2, t, htt, hcs2⟩ := iterm hh
        have hcs2' : o2 = cs2.map Out.chunk ++ [t] := hcs2
        exact ⟨cs1 ++ cs2, t, htt, by simp [hcs1', hcs2']⟩

theorem streamOutputs_shape (chunks : List (List Char)) (endK : StreamEnd) :
    (endK = StreamEnd.abort
        ∧ ∃ cs : List (List Char), streamOutputs chunks endK = cs.map Out.chunk)
    ∨ ∃ (cs : List (List Char)) (t : Out), isTermB t = true
        ∧ streamOutputs chunks endK = cs.map Out.chunk ++ [t] := by
  rcases hm : feedMany dec0 chunks with ⟨st, o⟩
  obtain ⟨ok, term⟩ := feedMany_shape chunks dec0 rfl
  rw [hm] at ok term
  by_cases hh : st.2.halted = true
  · obtain ⟨cs, t, htt, hto⟩ := term hh
    have hto' : o = cs.map Out.chunk ++ [t] := hto
    right
    exact ⟨cs, t, htt, by cases endK <;> simp [streamOutputs, hm, hh, hto']⟩
  · have hhf : st.2.halted = false := by simpa using hh
    obtain ⟨cs, hcs⟩ := ok hhf
    have hcs' : o = cs.map Out.chunk := hcs
    cases endK with
    | eof =>
      right
      exact ⟨cs, Out.done, rfl, by simp [streamOutputs, hm, hhf, hcs']⟩
    | fail m =>
      right
      exact ⟨cs, Out.error m, rfl, by simp [streamOutputs, hm, hhf, hcs']⟩
    | abort =>
      left
      exact ⟨rfl, cs, by simp [streamOutputs, hm, hcs']⟩

/-! ## Lemmas: coordinator evaluation -/

theorem coordRun_append (text : List Char) (fb : Except (List Char) (List Char))
    (A B : List Out) : ∀ st, coordRun text fb st (A ++ B)
      = coordRun text fb (coordRun text fb st A) B := by
  induction A with
  | nil => intro st; rfl
  | cons o os ih => intro st; simp [coordRun, ih]

theorem coordRun_chunks (text : List Char) (fb : Except (List Char) (List Char))
    (cs : List (List Char)) : ∀ (full : List Char) (r : CoordResult),
    r.streaming = full →
    coordRun text fb (full, r) (cs.map Out.chunk)
      = (full ++ cs.flatten,
         ⟨r.committed, r.fallbackReqs, full ++ cs.flatten, r.loading⟩) := by
  induction cs with
  | nil =>
    intro full r h
    cases r
    simp_all [coordRun]
  | cons c cs ih =>
    intro full r h
    have h1 : coordRun text fb (full, r) ((c :: cs).map Out.chunk)
        = coordRun text fb (full ++ c, { r with streaming := full ++ c })
            (cs.map Out.chunk) := rfl
    rw [h1, ih (full ++ c) _ rfl]
    simp

theorem joinChunksOut_map (cs : List (List Char)) :
    joinChunksOut (cs.map Out.chunk) = cs.flatten := by
  induction cs with
  | nil => rfl
  | cons c cs ih => simp [joinChunksOut, List.filterMap_cons] at ih ⊢; exact ih

theorem joinChunksOut_map_term (cs : List (List Char)) (t : Out)
    (ht : isTermB t = true) :
    joinChunksOut (cs.map Out.chunk ++ [t]) = cs.flatten := by
  have : joinChunksOut [t] = [] := by
    cases t
    · simp [isTermB] at ht
    · simp [joinChunksOut, List.filterMap_cons]
    · simp [joinChunksOut, List.filterMap_cons]
  calc joinChunksOut (cs.map Out.chunk ++ [t])
      = joinChunksOut (cs.map Out.chunk) ++ joinChunksOut [t] := by
        simp [joinChunksOut, List.filterMap_append]
    _ = cs.flatten := by rw [joinChunksOut_map, this, List.append_nil]

theorem coordinate_chunks_only (text : List Char)
    (fb : Except (List Char) (List Char)) (cs : List (List Char)) :
    coordinate text (cs.map Out.chunk) fb = ⟨[], [], cs.flatten, true⟩ := by
  unfold coordinate
  rw [coordRun_chunks text fb cs [] coordInit rfl]
  rfl

theorem coordinate_done (text : List Char) (fb : Except (List Char) (List Char))
    (cs : List (List Char)) :
    coordinate text (cs.map Out.chunk ++ [Out.done]) fb
      = ⟨[cs.flatten], [], [], false⟩ := by
  unfold coordinate
  rw [coordRun_append, coordRun_chunks text fb cs [] coordInit rfl]
  rfl

theorem coordinate_error (text : List Char) (fb : Except (List Char) (List Char))
    (cs : List (List Char)) (e : List Char) :
    coordinate text (cs.map Out.chunk ++ [Out.error e]) fb
      = ⟨[fbText fb], [text], [], false⟩ := by
  unfold coordinate
  rw [coordRun_append, coordRun_chunks text fb cs [] coordInit rfl]
  rfl

/-- Claim C2 (fallback exactly-once and no mixing): whenever the callback
sequence of an exchange ends in `onError` (error frame, transport failure, or
non-success status — all of which reach `onError` in `streamChatMessage`),
the `send` coordinator discards the streamed buffer, issues exactly one
non-streamed request carrying the same message text, and commits exactly the
fallback reply; when it ends in `onDone`, it commits exactly the
fully-streamed reply with no fallback request.  Either way, unless the caller
aborted, exactly one terminal callback occurs. -/
theorem fallback_exactly_once (text : List Char) (chunks : List (List Char))
    (endK : StreamEnd) (fb : Except (List Char) (List Char)) :
    ((streamOutputs chunks endK).getLast? = some Out.done →
        coordinate text (streamOutputs chunks endK) fb
          = ⟨[joinChunksOut (streamOutputs chunks endK)], [], [], false⟩)
    ∧ (∀ e, (streamOutputs chunks endK).getLast? = some (Out.error e) →
        coordinate text (streamOutputs chunks endK) fb
          = ⟨[fbText fb], [text], [], false⟩)
    ∧ (endK ≠ StreamEnd.abort →
        (streamOutputs chunks endK).countP (fun o => isTermB o) = 1) := by
  rcases streamOutputs_shape chunks endK with ⟨habort, cs, hcs⟩ | ⟨cs, t, htt, hcs⟩
  · refine ⟨fun hdone => ?_, fun e herr => ?_, fun hne => absurd habort hne⟩
    · rw [hcs] at hdone
      have := List.mem_of_mem_getLast? hdone
      simp at this
    · rw [hcs] at herr
      have := List.mem_of_mem_getLast? herr
      simp at this
  · refine ⟨fun hdone => ?_, fun e herr => ?_, fun _ => ?_⟩
    · rw [hcs, List.getLast?_concat] at hdone
      have ht : t = Out.done := Option.some.inj hdone
      subst ht
      rw [hcs, coordinate_done, joinChunksOut_map_term cs Out.done rfl]
    · rw [hcs, List.getLast?_concat] at herr
      have ht : t = Out.error e := Option.some.inj herr
      subst ht
      rw [hcs, coordinate_error]
    · rw [hcs, List.countP_append]
      have h0 : (List.map Out.chunk cs).countP (fun o => isTermB o) = 0 := by
        rw [List.countP_eq_zero]
        intro a ha
        obtain ⟨c, _, hc⟩ := List.mem_map.mp ha
        subst hc
        simp [isTermB]
      have h1 : List.countP (fun o => isTermB o) [t] = 1 := by
        simp [List.countP_cons, htt]
      rw [h0, h1]

/-- Witness for C2 at a concrete failing stream: an `error` frame leads to
exactly one fallback request for the same text and the fallback reply being
committed, with exactly one terminal callback. -/
theorem fallback_exactly_once_witness :
    coordinate "hi".toList
        (streamOutputs ["event: error\ndata: boom\n".toList] StreamEnd.eof)
        (Except.ok "R".toList)
      = ⟨["R".toList], ["hi".toList], [], false⟩
    ∧ (streamOutputs ["event: error\ndata: boom\n".toList] StreamEnd.eof).countP
        (fun o => isTermB o) = 1 := by
  constructor
  · exact (fallback_exactly_once "hi".toList
      ["event: error\ndata: boom\n".toList] StreamEnd.eof
      (Except.ok "R".toList)).2.1 "boom".toList (by decide)
  · exact (fallback_exactly_once "hi".toList
      ["event: error\ndata: boom\n".toList] StreamEnd.eof
      (Except.ok "R".toList)).2.2 (by decide)

/-- Claim C3 (caller-initiated cancellation is silent and never retried):
aborting while the stream is still being consumed (the decoder has not
halted) stops consumption with every delivered callback an `onChunk` — no
`onDone`, no `onError` — so the coordinator commits nothing and issues no
fallback request; aborting once the exchange is already terminal changes
nothing: the callback sequence is the same however the stream ends. -/
theorem cancellation_silent (text : List Char) (chunks : List (List Char))
    (fb : Except (List Char) (List Char)) :
    ((feedMany dec0 chunks).1.2.halted = false →
        (∀ o ∈ streamOutputs chunks StreamEnd.abort, ∃ c, o = Out.chunk c)
        ∧ coordinate text (streamOutputs chunks StreamEnd.abort) fb
            = ⟨[], [], joinChunksOut (streamOutputs chunks StreamEnd.abort), true⟩)
    ∧ ((feedMany dec0 chunks).1.2.halted = true →
        ∀ k1 k2 : StreamEnd, streamOutputs chunks k1 = streamOutputs chunks k2) := by
  rcases hm : feedMany dec0 chunks with ⟨st, o⟩
  obtain ⟨ok, _⟩ := feedMany_shape chunks dec0 rfl
  rw [hm] at ok
  have habort : streamOutputs chunks StreamEnd.abort = o := by
    simp [streamOutputs, hm]
  constructor
  · intro hh
    have hh' : st.2.halted = false := hh
    obtain ⟨cs, hcs⟩ := ok hh'
    have hcs' : o = cs.map Out.chunk := hcs
    constructor
    · intro o' ho'
      rw [habort, hcs'] at ho'
      obtain ⟨c, _, hc⟩ := List.mem_map.mp ho'
      exact ⟨c, hc.symm⟩
    · rw [habort, hcs', coordinate_chunks_only, joinChunksOut_map]
  · intro hh k1 k2
    have hh' : st.2.halted = true := hh
    cases k1 <;> cases k2 <;> simp [streamOutputs, hm, hh']

/-- Witness for C3 at the spec's scenario: cancel after two `onChunk`
deliveries — nothing committed, no fallback request, both terminal callbacks
suppressed. -/
theorem cancellation_silent_witness :
    coordinate "hi".toList
        (streamOutputs ["data: A\ndata: B\n".toList] StreamEnd.abort)
        (Except.ok "R".toList)
      = ⟨[], [], "AB".toList, true⟩
    ∧ streamOutputs ["data: A\ndata: B\n".toList] StreamEnd.abort
      = [Out.chunk "A".toList, Out.chunk "B".toList] := by
  have h := (cancellation_silent "hi".toList ["data: A\ndata: B\n".toList]
      (Except.ok "R".toList)).1 (by decide)
  exact ⟨by rw [h.2]; decide, by decide⟩

/-- Counterexample to C4 as stated: an `error` frame whose payload is empty
(`event: error` then `data: ` with empty remainder) ends the exchange with
the fixed message `"Unknown error"`, not with its (empty) payload as the
error message — `onError(data || "Unknown error")` in the source. -/
theorem terminal_frame_cex :
    streamOutputs ["event: error\ndata: \n".toList] StreamEnd.eof
        = [Out.error unknownL]
    ∧ [Out.error unknownL] ≠ [Out.error ([] : List Char)] := by
  exact ⟨by decide, by decide⟩

/-- Claim C4, amended (terminal frame semantics): terminal callbacks occur
only in final position; when a stream ends with the `done` event, exactly one
`onDone` fires, no `onError` fires, and the committed reply is the
concatenation of all prior data payloads (scenario `data: Hello`,
`data: World`, `event: done` included); when it ends with an `error` frame,
exactly one `onError` fires and no `onDone`, with the frame payload as the
error message when the payload is nonempty and the fixed message
`"Unknown error"` when it is empty. -/
theorem terminal_frame_semantics (chunks : List (List Char)) (endK : StreamEnd)
    (text : List Char) (fb : Except (List Char) (List Char)) :
    (∀ o ∈ (streamOutputs chunks endK).dropLast, ∃ c, o = Out.chunk c)
    ∧ ((streamOutputs chunks endK).getLast? = some Out.done →
        (streamOutputs chunks endK).count Out.done = 1
        ∧ (∀ e, (streamOutputs chunks endK).count (Out.error e) = 0)
        ∧ coordinate text (streamOutputs chunks endK) fb
            = ⟨[joinChunksOut (streamOutputs chunks endK)], [], [], false⟩)
    ∧ (∀ e, (streamOutputs chunks endK).getLast? = some (Out.error e) →
        (streamOutputs chunks endK).count (Out.error e) = 1
        ∧ (streamOutputs chunks endK).count Out.done = 0)
    ∧ streamOutputs ["data: Hello\ndata: World\nevent: done\n".toList]
        StreamEnd.eof
        = [Out.chunk "Hello".toList, Out.chunk "World".toList, Out.done]
    ∧ coordinate text (streamOutputs
          ["data: Hello\ndata: World\nevent: done\n".toList] StreamEnd.eof) fb
        = ⟨["HelloWorld".toList], [], [], false⟩
    ∧ streamOutputs ["event: error\ndata: boom\n".toList] StreamEnd.eof
        = [Out.error "boom".toList] := by
  refine ⟨?_, ?_, ?_, by decide, by rfl, by decide⟩
  · intro o ho
    rcases streamOutputs_shape chunks endK with ⟨_, cs, hcs⟩ | ⟨cs, t, _, hcs⟩
    · rw [hcs] at ho
      obtain ⟨c, _, hc⟩ := List.mem_map.mp (List.dropLast_subset _ ho)
      exact ⟨c, hc.symm⟩
    · rw [hcs, List.dropLast_concat] at ho
      obtain ⟨c, _, hc⟩ := List.mem_map.mp ho
      exact ⟨c, hc.symm⟩
  · intro hdone
    rcases streamOutputs_shape chunks endK with ⟨_, cs, hcs⟩ | ⟨cs, t, _, hcs⟩
    · rw [hcs] at hdone
      have := List.mem_of_mem_getLast? hdone
      simp at this
    · rw [hcs, List.getLast?_concat] at hdone
      have ht : t = Out.done := Option.some.inj hdone
      subst ht
      have hc0 : (List.map Out.chunk cs).count Out.done = 0 :=
        List.count_eq_zero.mpr (by simp)
      refine ⟨?_, fun e => ?_, ?_⟩
      · rw [hcs, List.count_append, hc0]
        rfl
      · rw [hcs, List.count_append,
          List.count_eq_zero.mpr (show Out.error e ∉ List.map Out.chunk cs by simp)]
        rfl
      · rw [hcs, coordinate_done, joinChunksOut_map_term cs Out.done rfl]
  · intro e herr
    rcases streamOutputs_shape chunks endK with ⟨_, cs, hcs⟩ | ⟨cs, t, _, hcs⟩
    · rw [hcs] at herr
      have := List.mem_of_mem_getLast? herr
      simp at this
    · rw [hcs, List.getLast?_concat] at herr
      have ht : t = Out.error e := Option.some.inj herr
      subst ht
      constructor
      · rw [hcs, List.count_append,
          List.count_eq_zero.mpr (show Out.error e ∉ List.map Out.chunk cs by simp)]
        simp
      · rw [hcs, List.count_append,
          List.count_eq_zero.mpr (show Out.done ∉ List.map Out.chunk cs by simp)]
        simp

/-- Witness for C4 at concrete streams: the `done` scenario has exactly one
`onDone` and no `onError`; the nonempty `error` scenario delivers its payload
as the message exactly once. -/
theorem terminal_frame_semantics_witness :
    ((streamOutputs ["data: Hello\ndata: World\nevent: done\n".toList]
        StreamEnd.eof).count Out.done = 1
      ∧ (streamOutputs ["data: Hello\ndata: World\nevent: done\n".toList]
        StreamEnd.eof).count (Out.error "x".toList) = 0)
    ∧ (streamOutputs ["event: error\ndata: boom\n".toList] StreamEnd.eof).count
        (Out.error "boom".toList) = 1 := by
  refine ⟨⟨?_, ?_⟩, ?_⟩
  · exact ((terminal_frame_semantics
      ["data: Hello\ndata: World\nevent: done\n".toList] StreamEnd.eof []
      (Except.ok [])).2.1 (by decide)).1
  · exact ((terminal_frame_semantics
      ["data: Hello\ndata: World\nevent: done\n".toList] StreamEnd.eof []
      (Except.ok [])).2.1 (by decide)).2.1 "x".toList
  · exact ((terminal_frame_semantics ["event: error\ndata: boom\n".toList]
      StreamEnd.eof [] (Except.ok [])).2.2.1 "boom".toList (by decide)).1

/-- Counterexample to C5 as stated: a `data: ` line whose remainder is the
empty string yields no frame at all (the source guards `else if (data)`, so
an empty payload is silently dropped when the current event is not
`error`). -/
theorem per_line_rule_cex :
    (feedChunk ([], (⟨msgL, false⟩ : LS)) "data: \n".toList).2 = []
    ∧ ([] : List Out) ≠ [Out.chunk []] := by
  exact ⟨by decide, by decide⟩

/-- Claim C5, amended (per-line decoding rule): feeding one complete line to
the decoder — a line with the event marker updates the current event name
(terminating with `onDone` exactly when the trimmed name is `done`); a line
with the data marker yields a frame carrying the current event name and the
nonempty remainder as payload, while an empty remainder yields no frame
(unless the current event is `error`, in which case the fixed message
`"Unknown error"` is reported); every other line is ignored; the event name
defaults to `"message"`. -/
theorem per_line_rule (s : LS) (line : List Char) (hn : ('\n') ∉ line)
    (hh : s.halted = false) :
    (List.isPrefixOf evMark line = true →
        (feedChunk ([], s) (line ++ ['\n'])).1.2.event = trimChars (line.drop 7)
        ∧ (trimChars (line.drop 7) = doneL →
            (feedChunk ([], s) (line ++ ['\n'])).2 = [Out.done]
            ∧ (feedChunk ([], s) (line ++ ['\n'])).1.2.halted = true)
        ∧ (trimChars (line.drop 7) ≠ doneL →
            (feedChunk ([], s) (line ++ ['\n'])).2 = []
            ∧ (feedChunk ([], s) (line ++ ['\n'])).1.2.halted = false))
    ∧ (List.isPrefixOf evMark line = false →
        List.isPrefixOf dataMark line = true →
        (feedChunk ([], s) (line ++ ['\n'])).1.2.event = s.event
        ∧ (s.event = errL →
            (feedChunk ([], s) (line ++ ['\n'])).2
              = [Out.error (if line.drop 6 = [] then unknownL else line.drop 6)])
        ∧ (s.event ≠ errL → line.drop 6 ≠ [] →
            (feedChunk ([], s) (line ++ ['\n'])).2 = [Out.chunk (line.drop 6)])
        ∧ (s.event ≠ errL → line.drop 6 = [] →
            (feedChunk ([], s) (line ++ ['\n'])).2 = []))
    ∧ (List.isPrefixOf evMark line = false →
        List.isPrefixOf dataMark line = false →
        feedChunk ([], s) (line ++ ['\n']) = (([], s), []))
    ∧ dec0.2.event = msgL := by
  have hsplit : splitNl (line ++ ['\n']) = [line, []] := by
    rw [splitNl_append, splitNl_no_nl line hn]
    have h2 : splitNl ['\n'] = [[], []] := by simp [splitNl]
    rw [h2]
    simp [glue]
  have hred : feedChunk ([], s) (line ++ ['\n'])
      = (([], (lineStep s line).1), (lineStep s line).2) := by
    rcases hls : lineStep s line with ⟨s1, o1⟩
    have hp : procLines s [line] = (s1, o1 ++ []) := by
      simp [procLines, hh, hls]
    simp [feedChunk, hh, hsplit, hp, hls]
  rw [hred]
  refine ⟨fun h1 => ⟨?_, fun h2 => ?_, fun h2 => ?_⟩,
         fun h1 h3 => ⟨?_, fun h4 => ?_, fun h4 h5 => ?_, fun h4 h5 => ?_⟩,
         fun h1 h3 => ?_, rfl⟩
  · by_cases h2 : trimChars (line.drop 7) = doneL <;> simp [lineStep, h1, h2]
  · simp [lineStep, h1, h2]
  · simp [lineStep, h1, h2, hh]
  · by_cases h4 : s.event = errL
    · simp [lineStep, h1, h3, h4]
    · by_cases h5 : line.drop 6 = [] <;> simp [lineStep, h1, h3, h4, h5]
  · simp [lineStep, h1, h3, h4]
  · simp [lineStep, h1, h3, h4, h5]
  · simp [lineStep, h1, h3, h4, h5]
  · simp [lineStep, h1, h3]

/-- Witness for C5 at concrete lines: a nonempty `data:` line yields one
frame with the remainder as payload; an `event: done` line terminates with
`onDone`; a line matching neither marker is ignored. -/
theorem per_line_rule_witness :
    (feedChunk ([], (⟨msgL, false⟩ : LS)) ("data: hi".toList ++ ['\n'])).2
        = [Out.chunk "hi".toList]
    ∧ (feedChunk ([], (⟨msgL, false⟩ : LS)) ("event: done".toList ++ ['\n'])).2
        = [Out.done]
    ∧ feedChunk ([], (⟨msgL, false⟩ : LS)) (": keep-alive".toList ++ ['\n'])
        = (([], (⟨msgL, false⟩ : LS)), []) := by
  refine ⟨?_, ?_, ?_⟩
  · exact ((per_line_rule ⟨msgL, false⟩ "data: hi".toList (by decide) rfl).2.1
      (by decide) (by decide)).2.2.1 (by decide) (by decide)
  · exact (((per_line_rule ⟨msgL, false⟩ "event: done".toList (by decide) rfl).1
      (by decide)).2.1 (by decide)).1
  · exact (per_line_rule ⟨msgL, false⟩ ": keep-alive".toList (by decide) rfl).2.2.1
      (by decide) (by decide)

/-! ## Lemmas: recorder lifecycle -/

theorem run_append (s : HookState) (a1 a2 : List Act) :
    run s (a1 ++ a2)
      = ((run (run s a1).1 a2).1, (run s a1).2 ++ (run (run s a1).1 a2).2) := by
  induction a1 generalizing s with
  | nil => simp [run]
  | cons a as ih =>
    rcases hs : step s a with ⟨s1, f1⟩
    simp [run, hs, ih, List.append_assoc]

theorem run_start : run hookInit [Act.startReq, Act.acquireOk]
    = (recState0, [Eff.getStream, Eff.newCtx, Eff.schedAnim, Eff.newRecorder,
       Eff.recStart, Eff.setIntervalE]) := by decide

theorem benign_step (s : HookState) (a : Act) (hb : benign a = true)
    (hf : fullHeld s) : fullHeld (step s a).1 ∧ zeroRelease (step s a).2 := by
  obtain ⟨h1, h2, h3, h4, h5, h6, h7, h8⟩ := hf
  cases a <;> simp [benign] at hb
  case dataAvail seg =>
    by_cases hl : seg.length > 0 <;>
      simp [step, h7, hl, fullHeld, zeroRelease, h1, h2, h3, h4, h5, h6, h8]
  case animTick =>
    simp [step, h3, fullHeld, zeroRelease, h1, h2, h4, h5, h6, h7, h8,
      List.count_cons]
  case timerTick =>
    simp [step, h5, fullHeld, zeroRelease, h1, h2, h3, h4, h6, h7, h8]

theorem benign_run (mid : List Act) : ∀ s : HookState,
    (∀ a ∈ mid, benign a = true) → fullHeld s →
    fullHeld (run s mid).1 ∧ zeroRelease (run s mid).2 := by
  induction mid with
  | nil =>
    intro s _ hf
    exact ⟨hf, by simp [run, zeroRelease]⟩
  | cons a as ih =>
    intro s hb hf
    obtain ⟨hfa, hz⟩ := benign_step s a (hb a (by simp)) hf
    rcases hs : step s a with ⟨s1, f1⟩
    rw [hs] at hfa hz
    obtain ⟨hfr, hzr⟩ := ih s1 (fun x hx => hb x (by simp [hx])) hfa
    rcases hr : run s1 as with ⟨s2, f2⟩
    rw [hr] at hfr hzr
    have hrun : run s (a :: as) = (s2, f1 ++ f2) := by simp [run, hs, hr]
    rw [hrun]
    refine ⟨hfr, ?_⟩
    obtain ⟨z1, z2, z3, z4, z5, z6, z7⟩ := hz
    obtain ⟨w1, w2, w3, w4, w5, w6, w7⟩ := hzr
    exact ⟨by simp [List.count_append, z1, w1], by simp [List.count_append, z2, w2],
           by simp [List.count_append, z3, w3], by simp [List.count_append, z4, w4],
           by simp [List.count_append, z5, w5], by simp [List.count_append, z6, w6],
           by simp [List.count_append, z7, w7]⟩

theorem cancel_full (s : HookState) (hf : fullHeld s) :
    (step s Act.cancel).2
      = [Eff.stopTracks, Eff.closeCtx, Eff.cancelAnim, Eff.clearIntervalE]
    ∧ idleReleased (step s Act.cancel).1 := by
  obtain ⟨h1, h2, h3, h4, h5, h6, h7, h8⟩ := hf
  constructor
  · simp [step, cleanup, h1, h2, h4, h5, h8]
  · simp [step, cleanup, idleReleased, h8]

theorem stop_full (s : HookState) (hf : fullHeld s) :
    (run s [Act.stopReq, Act.stopAck, Act.stopTimeout]).2
      = [Eff.recStop, Eff.stopTracks, Eff.closeCtx, Eff.cancelAnim,
         Eff.clearIntervalE, Eff.resolveB (some ⟨s.chunks.flatten, webmT⟩)]
    ∧ idleReleased (run s [Act.stopReq, Act.stopAck, Act.stopTimeout]).1 := by
  obtain ⟨h1, h2, h3, h4, h5, h6, h7, h8⟩ := hf
  constructor
  · simp [run, step, cleanup, handleStop, h1, h2, h4, h5, h6]
  · simp [run, step, cleanup, handleStop, idleReleased, h1, h2, h4, h5, h6]

/-- Claim C6 (resource release on every exit path): for the four exit
timings — cancel during recording (after any number of delivered segments,
animation frames and timer ticks), stop during recording (with the 1s
failsafe still firing afterwards), cancel before device acquisition
resolves, and acquisition failure while starting — every acquired handle
(device tracks, audio context, interval timer) is released exactly once, the
animation-frame loop is cancelled exactly once, and the hook ends idle with
no ref holding a live handle. -/
theorem resource_release_exactly_once :
    (∀ mid : List Act, (∀ a ∈ mid, benign a = true) →
        fullSession (run hookInit
            ([Act.startReq, Act.acquireOk] ++ mid ++ [Act.cancel])).2
        ∧ idleReleased (run hookInit
            ([Act.startReq, Act.acquireOk] ++ mid ++ [Act.cancel])).1)
    ∧ (∀ mid : List Act, (∀ a ∈ mid, benign a = true) →
        fullSession (run hookInit ([Act.startReq, Act.acquireOk] ++ mid
            ++ [Act.stopReq, Act.stopAck, Act.stopTimeout])).2
        ∧ idleReleased (run hookInit ([Act.startReq, Act.acquireOk] ++ mid
            ++ [Act.stopReq, Act.stopAck, Act.stopTimeout])).1)
    ∧ ((run hookInit [Act.startReq, Act.cancel, Act.acquireOk]).2
          = [Eff.getStream, Eff.stopTracks]
        ∧ idleReleased (run hookInit [Act.startReq, Act.cancel, Act.acquireOk]).1)
    ∧ (∀ m, (run hookInit [Act.startReq, Act.acquireFail m]).2
          = [Eff.reportErr (micDenied ++ m)]
        ∧ idleReleased (run hookInit [Act.startReq, Act.acquireFail m]).1) := by
  have hfull0 : fullHeld recState0 := by
    simp [fullHeld, recState0]
  refine ⟨fun mid hb => ?_, fun mid hb => ?_, by decide, fun m => ?_⟩
  · obtain ⟨hfm, hz⟩ := benign_run mid recState0 hb hfull0
    rcases hm : run recState0 mid with ⟨sm, fm⟩
    rw [hm] at hfm hz
    obtain ⟨hcfx, hcidle⟩ := cancel_full sm hfm
    rcases hc : step sm Act.cancel with ⟨sc, fc⟩
    rw [hc] at hcfx hcidle
    have h1 : run hookInit ([Act.startReq, Act.acquireOk] ++ mid)
        = (sm, [Eff.getStream, Eff.newCtx, Eff.schedAnim, Eff.newRecorder,
           Eff.recStart, Eff.setIntervalE] ++ fm) := by
      rw [run_append, run_start]
      simp [hm]
    have h2 : run hookInit (([Act.startReq, Act.acquireOk] ++ mid) ++ [Act.cancel])
        = (sc, ([Eff.getStream, Eff.newCtx, Eff.schedAnim, Eff.newRecorder,
           Eff.recStart, Eff.setIntervalE] ++ fm) ++ fc) := by
      rw [run_append, h1]
      simp [run, hc]
    rw [h2]
    obtain ⟨z1, z2, z3, z4, z5, z6, z7⟩ := hz
    subst hcfx
    exact ⟨⟨by simp [fullSession, List.count_append, List.count_cons, z1],
            by simp [fullSession, List.count_append, List.count_cons, z2],
            by simp [fullSession, List.count_append, List.count_cons, z3],
            by simp [fullSession, List.count_append, List.count_cons, z4],
            by simp [fullSession, List.count_append, List.count_cons, z5],
            by simp [fullSession, List.count_append, List.count_cons, z6],
            by simp [fullSession, List.count_append, List.count_cons, z7]⟩,
           hcidle⟩
  · obtain ⟨hfm, hz⟩ := benign_run mid recState0 hb hfull0
    rcases hm : run recState0 mid with ⟨sm, fm⟩
    rw [hm] at hfm hz
    obtain ⟨hsfx, hsidle⟩ := stop_full sm hfm
    rcases hc : run sm [Act.stopReq, Act.stopAck, Act.stopTimeout] with ⟨sc, fc⟩
    rw [hc] at hsfx hsidle
    have h1 : run hookInit ([Act.startReq, Act.acquireOk] ++ mid)
        = (sm, [Eff.getStream, Eff.newCtx, Eff.schedAnim, Eff.newRecorder,
           Eff.recStart, Eff.setIntervalE] ++ fm) := by
      rw [run_append, run_start]
      simp [hm]
    have h2 : run hookInit (([Act.startReq, Act.acquireOk] ++ mid)
          ++ [Act.stopReq, Act.stopAck, Act.stopTimeout])
        = (sc, ([Eff.getStream, Eff.newCtx, Eff.schedAnim, Eff.newRecorder,
           Eff.recStart, Eff.setIntervalE] ++ fm) ++ fc) := by
      rw [run_append, h1]
      simp [hc]
    rw [h2]
    obtain ⟨z1, z2, z3, z4, z5, z6, z7⟩ := hz
    subst hsfx
    exact ⟨⟨by simp [fullSession, List.count_append, List.count_cons, z1],
            by simp [fullSession, List.count_append, List.count_cons, z2],
            by simp [fullSession, List.count_append, List.count_cons, z3],
            by simp [fullSession, List.count_append, List.count_cons, z4],
            by simp [fullSession, List.count_append, List.count_cons, z5],
            by simp [fullSession, List.count_append, List.count_cons, z6],
            by simp [fullSession, List.count_append, List.count_cons, z7]⟩,
           hsidle⟩
  · constructor
    · simp [run, step, cleanup, hookInit]
    · simp [run, step, cleanup, hookInit, idleReleased]

/-- Witness for C6 at a concrete benign middle (an animation frame, one
delivered segment, one timer tick) for both the cancel and the stop path. -/
theorem resource_release_exactly_once_witness :
    (fullSession (run hookInit ([Act.startReq, Act.acquireOk]
          ++ [Act.animTick, Act.dataAvail [7], Act.timerTick]
          ++ [Act.cancel])).2
      ∧ idleReleased (run hookInit ([Act.startReq, Act.acquireOk]
          ++ [Act.animTick, Act.dataAvail [7], Act.timerTick]
          ++ [Act.cancel])).1)
    ∧ (fullSession (run hookInit ([Act.startReq, Act.acquireOk]
          ++ [Act.animTick, Act.dataAvail [7], Act.timerTick]
          ++ [Act.stopReq, Act.stopAck, Act.stopTimeout])).2
      ∧ idleReleased (run hookInit ([Act.startReq, Act.acquireOk]
          ++ [Act.animTick, Act.dataAvail [7], Act.timerTick]
          ++ [Act.stopReq, Act.stopAck, Act.stopTimeout])).1) :=
  ⟨resource_release_exactly_once.1
      [Act.animTick, Act.dataAvail [7], Act.timerTick] (by decide),
   resource_release_exactly_once.2.1
      [Act.animTick, Act.dataAvail [7], Act.timerTick] (by decide)⟩

theorem filter_pos_flatten (segs : List (List Nat)) :
    (segs.filter (fun g => 0 < g.length)).flatten = segs.flatten := by
  induction segs with
  | nil => rfl
  | cons g gs ih =>
    by_cases hg : 0 < g.length
    · simp [List.filter_cons, hg, ih]
    · have hnil : g = [] := by
        cases g with
        | nil => rfl
        | cons a as => simp at hg
      subst hnil
      simp [List.filter_cons, ih]

theorem data_run (segs : List (List Nat)) : ∀ s : HookState,
    s.handlerAttached = true →
    run s (segs.map Act.dataAvail)
      = ({ s with chunks := s.chunks ++ segs.filter (fun g => 0 < g.length) }, []) := by
  induction segs with
  | nil =>
    intro s _
    simp [run]
  | cons g gs ih =>
    intro s h
    by_cases hg : 0 < g.length
    · have hstep : step s (Act.dataAvail g) = ({ s with chunks := s.chunks ++ [g] }, []) := by
        simp [step, h, hg]
      have := ih { s with chunks := s.chunks ++ [g] } (by simp [h])
      simp [run, hstep, this, List.filter_cons, hg]
    · have hstep : step s (Act.dataAvail g) = (s, []) := by
        simp [step, h, hg]
      have := ih s h
      simp [run, hstep, this, List.filter_cons, hg]

/-- Counterexample to C7 as stated: a delivered zero-size segment is not
appended to the chunk buffer (`if (e.data.size > 0)` in `ondataavailable`),
so "never dropped" fails for empty segments. -/
theorem forced_finalize_cex :
    (run hookInit ([Act.startReq, Act.acquireOk]
        ++ [Act.dataAvail [1], Act.dataAvail [], Act.dataAvail [2]])).1.chunks
      = [[1], [2]]
    ∧ ([[1], [2]] : List (List Nat)) ≠ [[1], [], [2]] := by
  exact ⟨by decide, by decide⟩

/-- Claim C7, amended (forced finalize preserves content): segments of
positive size are appended to the buffer in arrival order and zero-size
segments are skipped (leaving the concatenated content unchanged); if the
encoder's stop acknowledgment misses the 1s failsafe, `stopRecording` still
resolves, with the container equal to the in-order concatenation of the
buffered segments tagged `audio/webm` — the same value the normal stop path
produces, and a later straggling acknowledgment does not change the settled
value. -/
theorem forced_finalize_preserves_content (segs : List (List Nat)) :
    (run hookInit ([Act.startReq, Act.acquireOk]
        ++ segs.map Act.dataAvail)).1.chunks
      = segs.filter (fun g => 0 < g.length)
    ∧ firstResolve (run hookInit (([Act.startReq, Act.acquireOk]
          ++ segs.map Act.dataAvail)
          ++ [Act.stopReq, Act.stopTimeout, Act.stopAck])).2
        = some (some ⟨(segs.filter (fun g => 0 < g.length)).flatten, webmT⟩)
    ∧ firstResolve (run hookInit (([Act.startReq, Act.acquireOk]
          ++ segs.map Act.dataAvail) ++ [Act.stopReq, Act.stopAck])).2
        = some (some ⟨(segs.filter (fun g => 0 < g.length)).flatten, webmT⟩)
    ∧ (segs.filter (fun g => 0 < g.length)).flatten = segs.flatten := by
  have hpre : run hookInit ([Act.startReq, Act.acquireOk] ++ segs.map Act.dataAvail)
      = ({ recState0 with chunks := segs.filter (fun g => 0 < g.length) }, 
         [Eff.getStream, Eff.newCtx, Eff.schedAnim, Eff.newRecorder,
          Eff.recStart, Eff.setIntervalE]) := by
    rw [run_append, run_start]
    rw [data_run segs recState0 (by simp [recState0])]
    simp [recState0]
  refine ⟨?_, ?_, ?_, ?_⟩
  · rw [hpre]
  · rw [run_append, hpre]
    simp [run, step, cleanup, handleStop, recState0, firstResolve, List.filterMap]
  · rw [run_append, hpre]
    simp [run, step, cleanup, handleStop, recState0, firstResolve, List.filterMap]
  · exact filter_pos_flatten segs

/-- Claim C8 (cancel racing acquisition): when cancel arrives after
`startRecording` begins but before `getUserMedia` resolves, the resolving
device handle is released immediately (its tracks stopped right after
acquisition, with no audio context created, no analysis frame scheduled, no
recorder created or started, no timer set), the data handler is never
installed so no segment can ever be buffered, and the hook ends idle. -/
theorem cancel_racing_acquisition :
    (run hookInit [Act.startReq, Act.cancel, Act.acquireOk]).2
        = [Eff.getStream, Eff.stopTracks]
    ∧ idleReleased (run hookInit [Act.startReq, Act.cancel, Act.acquireOk]).1
    ∧ (run hookInit [Act.startReq, Act.cancel, Act.acquireOk]).1.handlerAttached
        = false
    ∧ (run hookInit [Act.startReq, Act.cancel, Act.acquireOk]).1.chunks = []
    ∧ (∀ seg, step (run hookInit [Act.startReq, Act.cancel, Act.acquireOk]).1
          (Act.dataAvail seg)
        = ((run hookInit [Act.startReq, Act.cancel, Act.acquireOk]).1, []))
    ∧ step (run hookInit [Act.startReq, Act.cancel, Act.acquireOk]).1 Act.animTick
        = ((run hookInit [Act.startReq, Act.cancel, Act.acquireOk]).1, []) := by
  refine ⟨by decide, by decide, by decide, by decide, fun seg => ?_, by decide⟩
  have hh : (run hookInit [Act.startReq, Act.cancel, Act.acquireOk]).1.handlerAttached
      = false := by decide
  simp [step, hh]

/-- Claim C10 (stop when idle is a safe no-op): when no recorder object is
held, or the held recorder is already inactive, `stopRecording` runs the
resource cleanup, leaves `isRecording` and `isStarting` false with every ref
released, and resolves its promise with `null`. -/
theorem stop_when_idle (s : HookState)
    (h : s.recorder = none ∨ s.recorder = some RecPhase.inactive) :
    step s Act.stopReq
      = ({ (cleanup s).1 with isRecording := false, isStarting := false },
         (cleanup s).2 ++ [Eff.resolveB none])
    ∧ (step s Act.stopReq).1.isRecording = false
    ∧ (step s Act.stopReq).1.isStarting = false
    ∧ (step s Act.stopReq).1.stream = false
    ∧ (step s Act.stopReq).1.audioCtx = false
    ∧ (step s Act.stopReq).1.animFrame = false
    ∧ (step s Act.stopReq).1.timer = false
    ∧ (step s Act.stopReq).1.recorder = none := by
  rcases h with h | h <;> simp [step, cleanup, h]

/-- Witness for C10: on the never-started hook, `stopRecording` resolves
with `null` and leaves the hook idle. -/
theorem stop_when_idle_witness :
    step hookInit Act.stopReq
      = ({ (cleanup hookInit).1 with isRecording := false, isStarting := false },
         (cleanup hookInit).2 ++ [Eff.resolveB none])
    ∧ (step hookInit Act.stopReq).1.isRecording = false
    ∧ (step hookInit Act.stopReq).1.isStarting = false :=
  ⟨(stop_when_idle hookInit (Or.inl rfl)).1,
   (stop_when_idle hookInit (Or.inl rfl)).2.1,
   (stop_when_idle hookInit (Or.inl rfl)).2.2.1⟩

/-- Claim C9 (per-tick analysis output contract): for a magnitude array with
entries in 0–255 and length at least 32, the published volume equals
`min(100, 2 × 100 × mean(magnitudes)/255)` and lies in `[0, 100]`, and the
published waveform has length exactly 32 with bucket `i` holding the single
representative sample `magnitudes[i × stride]`, `stride = ⌊length / 32⌋`,
the index always being in range. -/
theorem analysis_tick_contract (data : List Nat)
    (hb : ∀ x ∈ data, x ≤ 255) (hl : 32 ≤ data.length) :
    (updateAnalysis data).1
        = min 100 (2 * 100 * ((data.sum : ℚ) / (data.length : ℚ)) / 255)
    ∧ 0 ≤ (updateAnalysis data).1
    ∧ (updateAnalysis data).1 ≤ 100
    ∧ (updateAnalysis data).2.length = 32
    ∧ ∀ i, i < 32 →
        i * (data.length / 32) < data.length
        ∧ (updateAnalysis data).2.getD i 0
            = data.getD (i * (data.length / 32)) 0 := by
  have hq : (1 : ℕ) ≤ data.length / 32 := (Nat.one_le_div_iff (by norm_num)).mpr hl
  refine ⟨?_, ?_, ?_, by simp [updateAnalysis], fun i hi => ⟨?_, ?_⟩⟩
  · show min 100 ((data.sum : ℚ) / (data.length : ℚ) / 255 * 100 * 2) = _
    congr 1
    ring
  · refine le_min (by norm_num) ?_
    positivity
  · exact min_le_left _ _
  · have h2 : i * (data.length / 32) ≤ 31 * (data.length / 32) :=
      Nat.mul_le_mul_right _ (by omega)
    have h3 : 31 * (data.length / 32) < 32 * (data.length / 32) := by
      omega
    have h4 : 32 * (data.length / 32) ≤ data.length := by
      calc 32 * (data.length / 32) = data.length / 32 * 32 := Nat.mul_comm _ _
        _ ≤ data.length := Nat.div_mul_le_self _ _
    calc i * (data.length / 32) ≤ 31 * (data.length / 32) := h2
      _ < 32 * (data.length / 32) := h3
      _ ≤ data.length := h4
  · show ((List.range 32).map
        (fun j => data.getD (j * (data.length / 32)) 0)).getD i 0 = _
    rw [List.getD_eq_getElem?_getD]
    simp [List.getElem?_map, List.getElem?_range, hi]

/-- Witness for C9 on a saturated 32-entry magnitude array. -/
theorem analysis_tick_contract_witness :
    0 ≤ (updateAnalysis (List.replicate 32 255)).1
    ∧ (updateAnalysis (List.replicate 32 255)).1 ≤ 100
    ∧ (updateAnalysis (List.replicate 32 255)).2.length = 32 := by
  have h := analysis_tick_contract (List.replicate 32 255)
      (by intro x hx; rw [List.eq_of_mem_replicate hx]) (by simp)
  exact ⟨h.2.1, h.2.2.1, h.2.2.2.1⟩
